import Mathlib

/-!
Verification of the client-side core of the youre-not-alone VS Code
extension: the WebSocket client's reconciliation buffer, cooldown gate,
reconnect backoff, message truncation, message signing and inbound
message handling, together with the secondary check-in view's buffer.

Conventions of the shallow embedding:
* JavaScript ISO-8601 timestamp strings are always compared through
  `new Date(ts).getTime()` in the source; we model the timestamp field
  directly as that integer number of milliseconds (`Int`).
* JavaScript strings, where the source counts UTF-16 code units
  (`message.length`, `substring`), are modelled as `List UInt16`.
* Wall-clock reads (`Date.now()`) become explicit `now : Int` parameters.
* Mutation of fields becomes explicit state passing; observer events
  (the `vscode.EventEmitter.fire` calls) become explicit action lists.
-/

/-- Embedding of the `NewCheckInMessage` interface of webSocketClient.ts.
The `timestamp` field is the parsed epoch-millisecond value of the ISO
string carried on the wire. -/
structure NewCheckInMessage where
  username : String
  tags : List String
  message : String
  timestamp : Int
  avatarUrl : Option String
  snippet : Option String
  deriving DecidableEq

/-- Embedding of `WebSocketClient.storeCheckIn` (webSocketClient.ts lines
332-352): `findIndex` locates the first entry with the same username; if
found, the entry is replaced in place exactly when the incoming timestamp
is strictly newer; otherwise the incoming check-in is pushed at the end.
The recursion walks the array in index order, so it replaces the first
matching entry in place and appends when no entry matches, exactly as
`findIndex` + in-place assignment + `push` do. -/
def storeCheckIn : List NewCheckInMessage → NewCheckInMessage → List NewCheckInMessage
  | [], c => [c]
  | e :: rest, c =>
    if e.username = c.username then
      if c.timestamp > e.timestamp then c :: rest else e :: rest
    else
      e :: storeCheckIn rest c

/-- Applies `storeCheckIn` to a whole arrival sequence, in arrival order. -/
def storeAll (buf : List NewCheckInMessage) (cs : List NewCheckInMessage) :
    List NewCheckInMessage :=
  cs.foldl storeCheckIn buf

/-- Running latest-check-in accumulator: folds a sequence keeping the entry
with the strictly larger timestamp (first arrival wins ties), mirroring the
net effect of repeated `storeCheckIn` calls for a single username. -/
def latestCheckIn (r : NewCheckInMessage) (cs : List NewCheckInMessage) :
    NewCheckInMessage :=
  cs.foldl (fun a c => if c.timestamp > a.timestamp then c else a) r

/-- Embedding of the `ReadyState` values of the ws `WebSocket` object. -/
inductive ReadyState
  | CONNECTING
  | OPEN
  | CLOSING
  | CLOSED
  deriving DecidableEq

/-- Fields of `WebSocketClient` read or written by the socket message
handler (webSocketClient.ts lines 219-264): the check-in store, the online
users count, the last-history-message clock and the socket itself
(`none` when the field is null). -/
structure ClientMessageState where
  allReceivedCheckIns : List NewCheckInMessage
  onlineUsersCount : Int
  lastHistoryMessageTime : Int
  socket : Option ReadyState
  deriving DecidableEq

/-- Embedding of `WebSocketClient.getAllCheckIns` (lines 354-357): returns
a spread copy of `allReceivedCheckIns`; in the pure model the copy is the
list value itself, and the state is untouched. -/
def getAllCheckIns (s : ClientMessageState) : List NewCheckInMessage :=
  s.allReceivedCheckIns

/-- Classification of one inbound transport frame after `JSON.parse`:
either the parse threw (`parseFailure`), or the parsed object's `type`
field selects one of the three handled shapes, or it is some other value
(`unrecognized`). -/
inductive InboundMessage
  | parseFailure
  | newCheckin (c : NewCheckInMessage)
  | onlineUsers (count : Int)
  | errorMessage (msg : String)
  | unrecognized
  deriving DecidableEq

/-- Observable side effects of the socket message handler: the emitter
fires and the user-visible error popup, plus the `console.error` log on a
parse failure. -/
inductive HandlerAction
  | firedMessageReceived (c : NewCheckInMessage)
  | firedOnlineUsersChanged (n : Int)
  | showedErrorMessage (msg : String)
  | loggedParseError
  deriving DecidableEq

/-- Embedding of the `message` event handler installed by
`WebSocketClient.connect` (lines 219-264). A `new_checkin` frame updates
the history clock, stores the check-in and fires the message event; an
`online_users` frame replaces the count and fires its event; an `error`
frame only logs and shows a popup; a frame that failed to parse is logged
and dropped; a parsed frame of any other type falls through every branch
and is dropped silently. The history-completeness timer bookkeeping
(messageCount, historyTimeout) touches none of the modelled fields and is
elided. No branch closes or replaces the socket. -/
def handleSocketMessage (s : ClientMessageState) (now : Int)
    (msg : InboundMessage) : ClientMessageState × List HandlerAction :=
  match msg with
  | InboundMessage.newCheckin c =>
      ({ s with
          allReceivedCheckIns := storeCheckIn s.allReceivedCheckIns c,
          lastHistoryMessageTime := now },
        [HandlerAction.firedMessageReceived c])
  | InboundMessage.onlineUsers n =>
      ({ s with onlineUsersCount := n }, [HandlerAction.firedOnlineUsersChanged n])
  | InboundMessage.errorMessage m => (s, [HandlerAction.showedErrorMessage m])
  | InboundMessage.parseFailure => (s, [HandlerAction.loggedParseError])
  | InboundMessage.unrecognized => (s, [])

/-- Embedding of the `CheckInData` interface of secondaryCheckInView.ts,
with the timestamp again as its parsed epoch-millisecond value. -/
structure CheckInData where
  username : String
  tags : List String
  message : String
  timestamp : Int
  avatarUrl : Option String
  snippet : Option String
  deriving DecidableEq

/-- Present-username branch of `SecondaryCheckInView.addCheckIn`: replace
the first entry with the same username in place when the incoming
timestamp is strictly newer, otherwise keep the buffer as it is. -/
def replaceIfNewer : List CheckInData → CheckInData → List CheckInData
  | [], _ => []
  | e :: rest, c =>
    if e.username = c.username then
      if c.timestamp > e.timestamp then c :: rest else e :: rest
    else
      e :: replaceIfNewer rest c

/-- Embedding of the buffer update of `SecondaryCheckInView.addCheckIn`
(secondaryCheckInView.ts lines 208-234): `findIndex` decides whether the
username is present; if present the entry is replaced only when strictly
newer; if absent the check-in is pushed at the end and, when the length
then exceeds 100, the buffer is reassigned to `slice(0, 100)`, i.e. its
first 100 elements. The view-notification bookkeeping (counter, pending
list, webview refresh) does not touch the buffer and is elided. -/
def addCheckIn (checkIns : List CheckInData) (c : CheckInData) :
    List CheckInData :=
  if checkIns.any (fun e => e.username == c.username) then
    replaceIfNewer checkIns c
  else
    let pushed := checkIns ++ [c]
    if pushed.length > 100 then pushed.take 100 else pushed

/-- Applies `addCheckIn` to a whole arrival sequence, in arrival order. -/
def addAllCheckIns (checkIns : List CheckInData) (cs : List CheckInData) :
    List CheckInData :=
  cs.foldl addCheckIn checkIns

/-- Comparator of `SecondaryCheckInView.updateView`: the JavaScript sort
callback is `(a, b) => b.timestamp - a.timestamp` on the parsed times, a
stable sort into descending timestamp order. -/
def byTimestampDesc (a b : CheckInData) : Bool :=
  decide (b.timestamp ≤ a.timestamp)

/-- Fields of `SecondaryCheckInView` read or written by `updateView`. -/
structure SecondaryCheckInViewState where
  checkIns : List CheckInData
  pendingCheckIns : List CheckInData
  deriving DecidableEq

/-- Embedding of `SecondaryCheckInView.updateView` (lines 262-283) on the
ready-webview path: a spread copy of `checkIns` is sorted by timestamp
descending (stable sort, modelled by `mergeSort` with the same order) and
posted to the webview; the buffer itself is not modified, and
`pendingCheckIns` is cleared afterwards. The returned pair is the new
state and the list posted to the webview. -/
def updateView (s : SecondaryCheckInViewState) :
    SecondaryCheckInViewState × List CheckInData :=
  let sortedCheckIns := s.checkIns.mergeSort byTimestampDesc
  ({ s with pendingCheckIns := [] }, sortedCheckIns)

/-- Cooldown fields of `WebSocketClient`: `lastCheckInTime` (initially 0,
line 59) and `cooldownPeriodMs` (10 minutes by default, overridden by
configuration, lines 60 and 80). -/
structure CooldownState where
  lastCheckInTime : Int
  cooldownPeriodMs : Int
  deriving DecidableEq

/-- Embedding of `WebSocketClient.canCheckIn` (lines 415-418):
`now - lastCheckInTime >= cooldownPeriodMs`. -/
def canCheckIn (s : CooldownState) (now : Int) : Bool :=
  decide (now - s.lastCheckInTime ≥ s.cooldownPeriodMs)

/-- Embedding of `WebSocketClient.getRemainingCooldownTime`
(lines 424-433). -/
def getRemainingCooldownTime (s : CooldownState) (now : Int) : Int :=
  let elapsed := now - s.lastCheckInTime
  if elapsed ≥ s.cooldownPeriodMs then 0 else s.cooldownPeriodMs - elapsed

/-- Cooldown effect of `WebSocketClient.sendCheckIn` (lines 522-609): an
attempt on cooldown resolves false and changes nothing; otherwise, on
every success path (socket open, simulation fallback, or the token-fetch
failure fallback) `lastCheckInTime` is set to `Date.now()` at the
submission instant, independent of any relay acknowledgment, and the call
resolves true. -/
def sendCheckIn (s : CooldownState) (now : Int) : Bool × CooldownState :=
  if canCheckIn s now then
    (true, { s with lastCheckInTime := now })
  else
    (false, s)

/-- Reconnect backoff field of `WebSocketClient`: `reconnectInterval`,
initially 5000 ms (line 44). Rationals model the JavaScript multiply by
1.5 exactly. -/
structure BackoffState where
  reconnectInterval : ℚ
  deriving DecidableEq

/-- Initial backoff state (`reconnectInterval = 5000`, line 44). -/
def initialBackoff : BackoffState := ⟨5000⟩

/-- Delay the close handler passes to `setTimeout` (line 201): the current
`reconnectInterval`. -/
def scheduledReconnectDelay (s : BackoffState) : ℚ :=
  s.reconnectInterval

/-- Body of the reconnect timer (lines 197-201): when it fires, first
`reconnectInterval = min(reconnectInterval * 1.5, 30000)`, then
`connect()` is called again. -/
def reconnectTimerFire (s : BackoffState) : BackoffState :=
  ⟨min (s.reconnectInterval * (3 / 2)) 30000⟩

/-- Open handler effect on the backoff (line 210): reset
`reconnectInterval` to 5000. -/
def openHandler (_ : BackoffState) : BackoffState :=
  ⟨5000⟩

/-- Backoff state reached after `k` reconnect timers have fired, i.e. just
before the close handler of the (k+1)-th consecutive failed attempt runs. -/
def stateAfterFailures (k : Nat) : BackoffState :=
  reconnectTimerFire^[k] initialBackoff

/-- Character limit applied at submission (lines 529 and 613). -/
def MAX_CHARS : Nat := 42

/-- Embedding of the truncation in `WebSocketClient.sendCheckIn` (line
530) and `WebSocketClient.simulateCheckInResponse` (line 614):
`message.length > 42 ? message.substring(0, 42) : message`, where length
and substring count UTF-16 code units, modelled as a `List UInt16`. -/
def truncatedMessage (message : List UInt16) : List UInt16 :=
  if message.length > MAX_CHARS then message.take MAX_CHARS else message

/-- Embedding of the `CheckInMessage` wire interface of webSocketClient.ts,
with string fields as transmitted (the timestamp here is the ISO string). -/
structure CheckInMessage where
  type : String
  username : String
  tags : List String
  message : String
  timestamp : String
  avatarUrl : Option String
  snippet : Option String
  token : Option String
  signature : Option String
  signatureTimestamp : Option String
  deriving DecidableEq

/-- Lower-case hexadecimal digit, as produced by JSON escapes. -/
def hexDigit (n : Nat) : Char :=
  if n < 10 then Char.ofNat (48 + n) else Char.ofNat (87 + n)

/-- JSON escape of one character, following `JSON.stringify` for strings:
quote, backslash and the named control escapes, then `\u00XX` for the
remaining control characters, all other characters unchanged. -/
def jsonEscapeChar (c : Char) : String :=
  if c = Char.ofNat 34 then "\\\""
  else if c = Char.ofNat 92 then "\\\\"
  else if c = Char.ofNat 8 then "\\b"
  else if c = Char.ofNat 9 then "\\t"
  else if c = Char.ofNat 10 then "\\n"
  else if c = Char.ofNat 12 then "\\f"
  else if c = Char.ofNat 13 then "\\r"
  else if c.toNat < 32 then
    "\\u00" ++ String.mk [hexDigit (c.toNat / 16), hexDigit (c.toNat % 16)]
  else String.mk [c]

/-- JSON escape of a whole string. -/
def jsonEscape (s : String) : String :=
  String.join (s.toList.map jsonEscapeChar)

/-- JSON serialization of a string value, quotes included. -/
def jsonString (s : String) : String :=
  "\"" ++ jsonEscape s ++ "\""

/-- JSON serialization of an array of strings. -/
def jsonStringArray (l : List String) : String :=
  "[" ++ String.intercalate "," (l.map jsonString) ++ "]"

/-- Embedding of `JSON.stringify(cleanMessage)` inside
`WebSocketClient.signMessage` (lines 492-503): the clean object lists the
keys `type, username, tags, message, timestamp, avatarUrl, snippet` in
that insertion order, and `JSON.stringify` omits the optional properties
whose value is `undefined`. -/
def stringifyCleanMessage (m : CheckInMessage) : String :=
  let requiredFields :=
    [("type", jsonString m.type),
     ("username", jsonString m.username),
     ("tags", jsonStringArray m.tags),
     ("message", jsonString m.message),
     ("timestamp", jsonString m.timestamp)]
  let optionalFields :=
    (match m.avatarUrl with
      | some a => [("avatarUrl", jsonString a)]
      | none => []) ++
    (match m.snippet with
      | some sn => [("snippet", jsonString sn)]
      | none => [])
  "\x7b" ++
    String.intercalate ","
      ((requiredFields ++ optionalFields).map (fun p => jsonString p.1 ++ ":" ++ p.2)) ++
    "\x7d"

/-- Embedding of `WebSocketClient.signMessage` (lines 487-512). The keyed
hash (`crypto.createHmac('sha256', secret)` fed with the canonical string
followed by the signing timestamp, digested as hex) is abstracted as the
function argument `hmacSha256Hex`, applied to the secret and exactly the
data the source signs; the freshly generated `Date.now().toString()` is
the explicit `timestamp` argument. -/
def signMessage (hmacSha256Hex : String → String → String) (secret : String)
    (timestamp : String) (message : CheckInMessage) : String × String :=
  let messageStr := stringifyCleanMessage message
  let dataToSign := messageStr ++ timestamp
  (hmacSha256Hex secret dataToSign, timestamp)

/-- Fields of `WebSocketClient` read or written by the duplicate-guard
prologue of `connect` (lines 127-156): the socket (with its ready state)
and the two history flags reset on a fresh attempt. -/
structure ConnectionControlState where
  socket : Option ReadyState
  initialHistoryReceived : Bool
  receivingInitialHistory : Bool
  deriving DecidableEq

/-- Observable actions of the `connect` prologue: a connection-status
event, the close of a stale socket, and the creation of a new socket. -/
inductive ConnectAction
  | statusChanged (connected : Bool)
  | closedExistingSocket
  | createdNewSocket
  deriving DecidableEq

/-- Fresh-attempt tail of `connect` (lines 152-170): reset the history
flags and create a new socket, which starts in the CONNECTING state. -/
def connectFresh (s : ConnectionControlState) (acts : List ConnectAction) :
    ConnectionControlState × List ConnectAction :=
  ({ s with
      socket := some ReadyState.CONNECTING,
      initialHistoryReceived := false,
      receivingInitialHistory := true },
    acts ++ [ConnectAction.createdNewSocket])

/-- Embedding of the prologue of `WebSocketClient.connect` (lines
127-170). With a socket in CONNECTING state the call logs and returns,
firing nothing; with a socket in OPEN state it fires `statusChanged true`
and returns; otherwise any non-CLOSED socket is closed, the reference is
cleared and a fresh attempt starts. -/
def connect (s : ConnectionControlState) :
    ConnectionControlState × List ConnectAction :=
  match s.socket with
  | some rs =>
    if rs = ReadyState.CONNECTING then (s, [])
    else if rs = ReadyState.OPEN then (s, [ConnectAction.statusChanged true])
    else
      connectFresh { s with socket := none }
        (if rs = ReadyState.CLOSED then [] else [ConnectAction.closedExistingSocket])
  | none => connectFresh s []

/-- Sample check-in by alice with the earlier timestamp. -/
def wsMsgA : NewCheckInMessage :=
  { username := "alice", tags := ["python"], message := "debugging",
    timestamp := 100, avatarUrl := none, snippet := none }

/-- Sample check-in by bob with the later timestamp. -/
def wsMsgB : NewCheckInMessage :=
  { username := "bob", tags := ["rust"], message := "compiling",
    timestamp := 200, avatarUrl := none, snippet := none }

/-- Second, newer check-in by alice. -/
def wsMsgA2 : NewCheckInMessage :=
  { username := "alice", tags := [], message := "still debugging",
    timestamp := 300, avatarUrl := none, snippet := none }

/-- Client state after receiving the check-in by alice and then the newer
one by bob, in that arrival order. -/
def exampleClientState : ClientMessageState :=
  { allReceivedCheckIns := storeAll [] [wsMsgA, wsMsgB],
    onlineUsersCount := 2, lastHistoryMessageTime := 0,
    socket := some ReadyState.OPEN }

/-- View buffer entry number `i`: distinct username, timestamp `i`. -/
def viewEntry (i : Nat) : CheckInData :=
  { username := toString i, tags := [], message := "", timestamp := Int.ofNat i,
    avatarUrl := none, snippet := none }

/-- View buffer filled to its capacity of 100 distinct usernames, oldest
timestamp first. -/
def fullBuffer : List CheckInData := (List.range 100).map viewEntry

/-- A 101st distinct username, carrying the newest timestamp of all. -/
def newEntry : CheckInData := viewEntry 100

/-- Fresh cooldown state of a just-constructed client: `lastCheckInTime`
is 0 and the default cooldown period is 10 minutes. -/
def freshCooldownState : CooldownState :=
  { lastCheckInTime := 0, cooldownPeriodMs := 600000 }

/-- A connection whose socket is mid-handshake (CONNECTING). -/
def connectingClientState : ConnectionControlState :=
  { socket := some ReadyState.CONNECTING, initialHistoryReceived := true,
    receivingInitialHistory := false }

/-- A connection whose socket is established (OPEN). -/
def openClientState : ConnectionControlState :=
  { socket := some ReadyState.OPEN, initialHistoryReceived := true,
    receivingInitialHistory := false }

/-- Over-long message: 50 UTF-16 code units (50 copies of the letter a). -/
def longMessage : List UInt16 := List.replicate 50 97

/-- Outbound check-in payload carrying an authentication token. -/
def signedPayloadWithToken : CheckInMessage :=
  { type := "checkin", username := "alice", tags := ["python"],
    message := "debugging", timestamp := "2025-01-01T00:00:00.000Z",
    avatarUrl := some "https://github.com/alice.png",
    snippet := some "is coding with enthusiasm",
    token := some "gho_sample_token",
    signature := none, signatureTimestamp := none }

/-- Same payload with the token removed. -/
def signedPayloadWithoutToken : CheckInMessage :=
  { signedPayloadWithToken with token := none }

/-- Running latest-check-in accumulator for the view buffer, mirroring the
net effect of repeated addCheckIn calls for a single username: the entry
with the strictly larger timestamp wins, first arrival wins ties. -/
def latestCheckInData (r : CheckInData) (cs : List CheckInData) :
    CheckInData :=
  cs.foldl (fun a c => if c.timestamp > a.timestamp then c else a) r

/-- View-buffer copy of the first alice check-in (timestamp 100). -/
def viewMsgA : CheckInData :=
  { username := "alice", tags := ["python"], message := "debugging",
    timestamp := 100, avatarUrl := none, snippet := none }

/-- View-buffer copy of the newer alice check-in (timestamp 300). -/
def viewMsgA2 : CheckInData :=
  { username := "alice", tags := [], message := "still debugging",
    timestamp := 300, avatarUrl := none, snippet := none }

/-- Claim C4: canCheckIn returns now - lastCheckInTime >= cooldownPeriodMs;
immediately after a successful sendCheckIn, queried at the submission
instant, canCheckIn is false, getRemainingCooldownTime equals
cooldownPeriodMs, and lastCheckInTime is the submission instant regardless
of any relay acknowledgment; once cooldownPeriodMs has elapsed,
canCheckIn is true again. -/
theorem cooldown_after_sendCheckIn (s : CooldownState) (now : Int)
    (hp : 0 < s.cooldownPeriodMs) :
    canCheckIn s now = decide (now - s.lastCheckInTime ≥ s.cooldownPeriodMs) ∧
    (canCheckIn s now = true →
      (sendCheckIn s now).1 = true ∧
      ((sendCheckIn s now).2).lastCheckInTime = now ∧
      canCheckIn (sendCheckIn s now).2 now = false ∧
      getRemainingCooldownTime (sendCheckIn s now).2 now = s.cooldownPeriodMs ∧
      (∀ t : Int, now + s.cooldownPeriodMs ≤ t →
        canCheckIn (sendCheckIn s now).2 t = true)) := by
  refine ⟨rfl, fun hcan => ?_⟩
  have hs : sendCheckIn s now = (true, { s with lastCheckInTime := now }) := by
    simp [sendCheckIn, hcan]
  rw [hs]
  refine ⟨rfl, rfl, ?_, ?_, ?_⟩
  · simp only [canCheckIn, decide_eq_false_iff_not]
    omega
  · have hcond : ¬ (now - now ≥ s.cooldownPeriodMs) := by omega
    simp only [getRemainingCooldownTime, if_neg hcond]
    omega
  · intro t ht
    simp only [canCheckIn, decide_eq_true_eq]
    omega

/-- Witness for claim C4 at a concrete state: fresh client, default
10-minute cooldown, submitting at epoch time 1700000000000. -/
theorem cooldown_after_sendCheckIn_witness :
    0 < freshCooldownState.cooldownPeriodMs ∧
    (canCheckIn freshCooldownState 1700000000000 =
      decide ((1700000000000 : Int) - freshCooldownState.lastCheckInTime ≥
        freshCooldownState.cooldownPeriodMs) ∧
    (canCheckIn freshCooldownState 1700000000000 = true →
      (sendCheckIn freshCooldownState 1700000000000).1 = true ∧
      ((sendCheckIn freshCooldownState 1700000000000).2).lastCheckInTime = 1700000000000 ∧
      canCheckIn (sendCheckIn freshCooldownState 1700000000000).2 1700000000000 = false ∧
      getRemainingCooldownTime (sendCheckIn freshCooldownState 1700000000000).2
        1700000000000 = freshCooldownState.cooldownPeriodMs ∧
      (∀ t : Int, 1700000000000 + freshCooldownState.cooldownPeriodMs ≤ t →
        canCheckIn (sendCheckIn freshCooldownState 1700000000000).2 t = true))) :=
  ⟨by decide, cooldown_after_sendCheckIn freshCooldownState 1700000000000 (by decide)⟩

/-- Claim C10: canCheckIn is true exactly when getRemainingCooldownTime is
0, and a freshly constructed client (lastCheckInTime 0) can check in at
any clock reading at least one cooldown period after the epoch. -/
theorem canCheckIn_iff_remaining_zero (s : CooldownState) (now : Int) :
    (canCheckIn s now = true ↔ getRemainingCooldownTime s now = 0) ∧
    (s.cooldownPeriodMs ≤ now →
      canCheckIn { s with lastCheckInTime := 0 } now = true) := by
  constructor
  · simp only [canCheckIn, getRemainingCooldownTime, decide_eq_true_eq]
    split <;> omega
  · intro h
    simp only [canCheckIn, decide_eq_true_eq]
    omega

/-- Witness for claim C10 at the fresh client state and a realistic clock. -/
theorem canCheckIn_iff_remaining_zero_witness :
    freshCooldownState.cooldownPeriodMs ≤ (1700000000000 : Int) ∧
    ((canCheckIn freshCooldownState 1700000000000 = true ↔
      getRemainingCooldownTime freshCooldownState 1700000000000 = 0) ∧
    (freshCooldownState.cooldownPeriodMs ≤ (1700000000000 : Int) →
      canCheckIn { freshCooldownState with lastCheckInTime := 0 } 1700000000000 = true)) :=
  ⟨by decide, canCheckIn_iff_remaining_zero freshCooldownState 1700000000000⟩

/-- Claim C6: the truncation applied at submission is exact and
idempotent: a message of at most 42 UTF-16 code units is sent unchanged, a
longer one is cut to exactly its first 42 code units, and truncating twice
equals truncating once; over-long input is truncated, never rejected. -/
theorem truncation_idempotent_exact (message : List UInt16) :
    (message.length ≤ MAX_CHARS → truncatedMessage message = message) ∧
    (MAX_CHARS < message.length → truncatedMessage message = message.take MAX_CHARS) ∧
    truncatedMessage (truncatedMessage message) = truncatedMessage message := by
  refine ⟨fun h => ?_, fun h => ?_, ?_⟩
  · rw [truncatedMessage, if_neg (by omega)]
  · rw [truncatedMessage, if_pos (by omega)]
  · by_cases h : message.length > MAX_CHARS
    · have h1 : truncatedMessage message = message.take MAX_CHARS := by
        rw [truncatedMessage, if_pos h]
      rw [h1, truncatedMessage, if_neg (by rw [List.length_take]; omega)]
    · have h1 : truncatedMessage message = message := by
        rw [truncatedMessage, if_neg h]
      rw [h1, truncatedMessage, if_neg h]

/-- Witness for claim C6: a 50-code-unit message is strictly longer than
42 units and is cut to exactly its first 42 units. -/
theorem truncation_idempotent_exact_witness :
    MAX_CHARS < longMessage.length ∧
    truncatedMessage longMessage = longMessage.take MAX_CHARS :=
  ⟨by decide, (truncation_idempotent_exact longMessage).2.1 (by decide)⟩

/-- Claim C9: the receive handler classifies frames as new_checkin,
online_users or error; a frame that failed to parse, or parsed to any
other type, is dropped whole: the state is untouched (in particular the
check-in buffer and the online-users count), at most a parse error is
logged, and no inbound frame of any kind closes the socket. -/
theorem malformed_inbound_dropped (s : ClientMessageState) (now : Int)
    (msg : InboundMessage)
    (h : msg = InboundMessage.parseFailure ∨ msg = InboundMessage.unrecognized) :
    (handleSocketMessage s now msg).1 = s ∧
    (∀ a ∈ (handleSocketMessage s now msg).2, a = HandlerAction.loggedParseError) ∧
    (∀ m : InboundMessage, ((handleSocketMessage s now m).1).socket = s.socket) := by
  have hsock : ∀ m : InboundMessage,
      ((handleSocketMessage s now m).1).socket = s.socket := by
    intro m
    cases m <;> rfl
  rcases h with h | h <;> subst h
  · exact ⟨rfl, by simp [handleSocketMessage], hsock⟩
  · exact ⟨rfl, by simp [handleSocketMessage], hsock⟩

/-- Witness for claim C9: an unparseable frame received by the example
client state changes nothing. -/
theorem malformed_inbound_dropped_witness :
    (InboundMessage.parseFailure = InboundMessage.parseFailure ∨
      InboundMessage.parseFailure = InboundMessage.unrecognized) ∧
    ((handleSocketMessage exampleClientState 500 InboundMessage.parseFailure).1 =
      exampleClientState ∧
    (∀ a ∈ (handleSocketMessage exampleClientState 500 InboundMessage.parseFailure).2,
      a = HandlerAction.loggedParseError) ∧
    (∀ m : InboundMessage,
      ((handleSocketMessage exampleClientState 500 m).1).socket =
        exampleClientState.socket)) :=
  ⟨Or.inl rfl,
    malformed_inbound_dropped exampleClientState 500 InboundMessage.parseFailure (Or.inl rfl)⟩

/-- Counterexample to claim C7 as stated: with a socket mid-handshake
(CONNECTING), a second connect() call returns without firing any event at
all, so it does not re-assert the current connection status to observers. -/
theorem connect_while_connecting_silent :
    connect connectingClientState = (connectingClientState, []) ∧
    (ConnectAction.statusChanged true ∉ (connect connectingClientState).2 ∧
      ConnectAction.statusChanged false ∉ (connect connectingClientState).2) := by
  decide

/-- Claim C7 (amended): a connect() call while the socket is CONNECTING or
OPEN is a no-op on the connection: the state is unchanged, no second
socket is created and the existing socket is not closed; the current
status is re-asserted by firing a status event only in the OPEN case,
while the CONNECTING case returns silently without firing anything. -/
theorem connect_duplicate_guard (s : ConnectionControlState) :
    (s.socket = some ReadyState.CONNECTING → connect s = (s, [])) ∧
    (s.socket = some ReadyState.OPEN →
      connect s = (s, [ConnectAction.statusChanged true])) := by
  constructor <;> intro h <;> simp [connect, h]

/-- Witness for claim C7 at the concrete OPEN state. -/
theorem connect_duplicate_guard_witness :
    openClientState.socket = some ReadyState.OPEN ∧
    connect openClientState = (openClientState, [ConnectAction.statusChanged true]) :=
  ⟨by decide, (connect_duplicate_guard openClientState).2 (by decide)⟩

/-- Claim C8: the signature produced by signMessage is a function of
exactly the seven canonicalized fields (type, username, tags, message,
timestamp, avatarUrl, snippet), the signing timestamp and the secret: two
payloads agreeing on those fields receive identical signatures under any
keyed hash, whatever their token, signature or signatureTimestamp fields. -/
theorem signature_depends_only_on_signed_fields
    (hmacSha256Hex : String → String → String) (secret timestamp : String)
    (m1 m2 : CheckInMessage)
    (htype : m1.type = m2.type) (huser : m1.username = m2.username)
    (htags : m1.tags = m2.tags) (hmsg : m1.message = m2.message)
    (hts : m1.timestamp = m2.timestamp) (havatar : m1.avatarUrl = m2.avatarUrl)
    (hsnip : m1.snippet = m2.snippet) :
    signMessage hmacSha256Hex secret timestamp m1 =
      signMessage hmacSha256Hex secret timestamp m2 := by
  simp only [signMessage, stringifyCleanMessage, htype, huser, htags, hmsg, hts,
    havatar, hsnip]

/-- Witness for claim C8: the same payload with and without an
authentication token signs identically under a concrete keyed hash. -/
theorem signature_depends_only_on_signed_fields_witness :
    signedPayloadWithToken.token ≠ signedPayloadWithoutToken.token ∧
    signMessage (fun secret data => secret ++ ":" ++ data) "shared-secret"
        "1700000000000" signedPayloadWithToken =
      signMessage (fun secret data => secret ++ ":" ++ data) "shared-secret"
        "1700000000000" signedPayloadWithoutToken :=
  ⟨by decide,
    signature_depends_only_on_signed_fields _ _ _ _ _ rfl rfl rfl rfl rfl rfl rfl⟩

/-- Reconnect interval reached after j reconnect timers have fired: the
base 5000 ms grown j times by 1.5, capped at 30000 ms. -/
theorem reconnectInterval_after_fires (j : Nat) :
    (stateAfterFailures j).reconnectInterval =
      min (5000 * ((3 : ℚ) / 2) ^ j) 30000 := by
  induction j with
  | zero =>
      show initialBackoff.reconnectInterval = _
      rw [pow_zero, mul_one, min_eq_left (by norm_num : (5000 : ℚ) ≤ 30000)]
      rfl
  | succ n ih =>
      rw [stateAfterFailures, Function.iterate_succ_apply']
      show min ((stateAfterFailures n).reconnectInterval * (3 / 2)) 30000 = _
      rw [ih]
      rcases le_total (5000 * ((3 : ℚ) / 2) ^ n) 30000 with h | h
      · rw [min_eq_left h, pow_succ, ← mul_assoc]
      · have hmono : (30000 : ℚ) ≤ 5000 * ((3 : ℚ) / 2) ^ (n + 1) := by
          have hx : 5000 * ((3 : ℚ) / 2) ^ n ≤ 5000 * ((3 : ℚ) / 2) ^ n * (3 / 2) := by
            nlinarith [pow_nonneg (by norm_num : (0 : ℚ) ≤ 3 / 2) n]
          calc (30000 : ℚ) ≤ 5000 * ((3 : ℚ) / 2) ^ n := h
            _ ≤ 5000 * ((3 : ℚ) / 2) ^ n * (3 / 2) := hx
            _ = 5000 * ((3 : ℚ) / 2) ^ (n + 1) := by ring
        rw [min_eq_right h,
          min_eq_right (by norm_num : (30000 : ℚ) ≤ 30000 * (3 / 2)),
          min_eq_right hmono]

/-- Claim C5: after k consecutive failed connection attempts the k-th
scheduled reconnect delay is min of 5000 times 1.5 to the (k-1) and 30000
milliseconds, and a successful transport open resets the backoff to the
5000 ms base. -/
theorem backoff_delay_growth (k : Nat) (_hk : 1 ≤ k) :
    scheduledReconnectDelay (stateAfterFailures (k - 1)) =
      min (5000 * ((3 : ℚ) / 2) ^ (k - 1)) 30000 ∧
    (∀ s : BackoffState, openHandler s = initialBackoff) :=
  ⟨reconnectInterval_after_fires (k - 1), fun _ => rfl⟩

/-- Witness for claim C5 at k = 7, where the cap has been reached. -/
theorem backoff_delay_growth_witness :
    1 ≤ 7 ∧
    (scheduledReconnectDelay (stateAfterFailures (7 - 1)) =
      min (5000 * ((3 : ℚ) / 2) ^ (7 - 1)) 30000 ∧
    (∀ s : BackoffState, openHandler s = initialBackoff)) :=
  ⟨by decide, backoff_delay_growth 7 (by decide)⟩

/-- Unfolding step of storeAll over a cons cell. -/
theorem storeAll_cons (buf : List NewCheckInMessage) (c : NewCheckInMessage)
    (cs : List NewCheckInMessage) :
    storeAll buf (c :: cs) = storeAll (storeCheckIn buf c) cs := rfl

/-- On a one-entry buffer for the same username, storeCheckIn keeps the
strictly newer of the two check-ins. -/
theorem storeCheckIn_singleton_same_user (r c : NewCheckInMessage)
    (h : r.username = c.username) :
    storeCheckIn [r] c = if c.timestamp > r.timestamp then [c] else [r] := by
  simp [storeCheckIn, h]

/-- Folding a same-username sequence over a one-entry buffer keeps exactly
the running latest check-in. -/
theorem storeAll_singleton_same_user (u : String) :
    ∀ (cs : List NewCheckInMessage) (r : NewCheckInMessage),
      r.username = u → (∀ c ∈ cs, c.username = u) →
      storeAll [r] cs = [latestCheckIn r cs] := by
  intro cs
  induction cs with
  | nil => intro r _ _; rfl
  | cons c cs ih =>
      intro r hr hu
      have hc : c.username = u := hu c (List.mem_cons_self _ _)
      rw [storeAll_cons, storeCheckIn_singleton_same_user r c (by rw [hr, hc])]
      rw [show latestCheckIn r (c :: cs) =
        latestCheckIn (if c.timestamp > r.timestamp then c else r) cs from rfl]
      by_cases hts : c.timestamp > r.timestamp
      · rw [if_pos hts, if_pos hts]
        exact ih c hc (fun x hx => hu x (List.mem_cons_of_mem _ hx))
      · rw [if_neg hts, if_neg hts]
        exact ih r hr (fun x hx => hu x (List.mem_cons_of_mem _ hx))

/-- The running latest check-in is one of the folded check-ins. -/
theorem latestCheckIn_mem :
    ∀ (cs : List NewCheckInMessage) (r : NewCheckInMessage),
      latestCheckIn r cs ∈ r :: cs := by
  intro cs
  induction cs with
  | nil => intro r; rw [show latestCheckIn r [] = r from rfl]; exact List.mem_cons_self _ _
  | cons c cs ih =>
      intro r
      rw [show latestCheckIn r (c :: cs) =
        latestCheckIn (if c.timestamp > r.timestamp then c else r) cs from rfl]
      by_cases hts : c.timestamp > r.timestamp
      · rw [if_pos hts]
        rcases List.mem_cons.mp (ih c) with h1 | h1
        · rw [h1]; exact List.mem_cons_of_mem _ (List.mem_cons_self _ _)
        · exact List.mem_cons_of_mem _ (List.mem_cons_of_mem _ h1)
      · rw [if_neg hts]
        rcases List.mem_cons.mp (ih r) with h1 | h1
        · rw [h1]; exact List.mem_cons_self _ _
        · exact List.mem_cons_of_mem _ (List.mem_cons_of_mem _ h1)

/-- The running latest check-in carries the maximal timestamp of the seed
and all folded check-ins. -/
theorem latestCheckIn_ts_ge :
    ∀ (cs : List NewCheckInMessage) (r : NewCheckInMessage),
      ∀ x ∈ r :: cs, x.timestamp ≤ (latestCheckIn r cs).timestamp := by
  intro cs
  induction cs with
  | nil =>
      intro r x hx
      rcases List.mem_cons.mp hx with h | h
      · rw [h, show latestCheckIn r [] = r from rfl]
      · cases h
  | cons c cs ih =>
      intro r x hx
      rw [show latestCheckIn r (c :: cs) =
        latestCheckIn (if c.timestamp > r.timestamp then c else r) cs from rfl]
      have hr_le : r.timestamp ≤ (if c.timestamp > r.timestamp then c else r).timestamp := by
        by_cases hts : c.timestamp > r.timestamp
        · rw [if_pos hts]; exact le_of_lt hts
        · rw [if_neg hts]
      have hc_le : c.timestamp ≤ (if c.timestamp > r.timestamp then c else r).timestamp := by
        by_cases hts : c.timestamp > r.timestamp
        · rw [if_pos hts]
        · rw [if_neg hts]; exact le_of_not_lt hts
      have hseed := ih (if c.timestamp > r.timestamp then c else r)
        (if c.timestamp > r.timestamp then c else r) (List.mem_cons_self _ _)
      rcases List.mem_cons.mp hx with h | h
      · rw [h]; exact le_trans hr_le hseed
      rcases List.mem_cons.mp h with h1 | h1
      · rw [h1]; exact le_trans hc_le hseed
      · exact ih (if c.timestamp > r.timestamp then c else r) x
          (List.mem_cons_of_mem _ h1)

/-- In a list whose timestamps are pairwise distinct, two members with the
same timestamp are the same entry. -/
theorem pairwise_ts_ne_mem_eq :
    ∀ l : List NewCheckInMessage,
      l.Pairwise (fun a b => a.timestamp ≠ b.timestamp) →
      ∀ a ∈ l, ∀ b ∈ l, a.timestamp = b.timestamp → a = b := by
  intro l
  induction l with
  | nil => intro _ a ha; cases ha
  | cons x xs ih =>
      intro hp a ha b hb hab
      rcases List.pairwise_cons.mp hp with ⟨hx, hxs⟩
      rcases List.mem_cons.mp ha with h1 | h1 <;> rcases List.mem_cons.mp hb with h2 | h2
      · rw [h1, h2]
      · exfalso; rw [h1] at hab; exact hx b h2 hab
      · exfalso; rw [h2] at hab; exact hx a h1 hab.symm
      · exact ih hxs a h1 b h2 hab

/-- Empty-buffer case of the view's addCheckIn: the first check-in for an
empty buffer is simply appended, with no truncation at length 1. -/
theorem addCheckIn_nil (c : CheckInData) : addCheckIn [] c = [c] := rfl

/-- On a one-entry view buffer for the same username, addCheckIn takes the
present branch through replaceIfNewer and keeps the strictly newer of the
two check-ins. -/
theorem addCheckIn_singleton_same_user (r c : CheckInData)
    (h : r.username = c.username) :
    addCheckIn [r] c = if c.timestamp > r.timestamp then [c] else [r] := by
  have hany : ([r].any fun e => e.username == c.username) = true := by
    simp [h]
  rw [addCheckIn, if_pos hany]
  simp [replaceIfNewer, h]

/-- Folding a same-username sequence over a one-entry view buffer keeps
exactly the running latest check-in. -/
theorem addAllCheckIns_singleton_same_user (u : String) :
    ∀ (cs : List CheckInData) (r : CheckInData),
      r.username = u → (∀ c ∈ cs, c.username = u) →
      addAllCheckIns [r] cs = [latestCheckInData r cs] := by
  intro cs
  induction cs with
  | nil => intro r _ _; rfl
  | cons c cs ih =>
      intro r hr hu
      have hc : c.username = u := hu c (List.mem_cons_self _ _)
      rw [show addAllCheckIns [r] (c :: cs) =
        addAllCheckIns (addCheckIn [r] c) cs from rfl,
        addCheckIn_singleton_same_user r c (by rw [hr, hc])]
      rw [show latestCheckInData r (c :: cs) =
        latestCheckInData (if c.timestamp > r.timestamp then c else r) cs from rfl]
      by_cases hts : c.timestamp > r.timestamp
      · rw [if_pos hts, if_pos hts]
        exact ih c hc (fun x hx => hu x (List.mem_cons_of_mem _ hx))
      · rw [if_neg hts, if_neg hts]
        exact ih r hr (fun x hx => hu x (List.mem_cons_of_mem _ hx))

/-- The running latest view check-in is one of the folded check-ins. -/
theorem latestCheckInData_mem :
    ∀ (cs : List CheckInData) (r : CheckInData),
      latestCheckInData r cs ∈ r :: cs := by
  intro cs
  induction cs with
  | nil =>
      intro r
      rw [show latestCheckInData r [] = r from rfl]
      exact List.mem_cons_self _ _
  | cons c cs ih =>
      intro r
      rw [show latestCheckInData r (c :: cs) =
        latestCheckInData (if c.timestamp > r.timestamp then c else r) cs from rfl]
      by_cases hts : c.timestamp > r.timestamp
      · rw [if_pos hts]
        rcases List.mem_cons.mp (ih c) with h1 | h1
        · rw [h1]; exact List.mem_cons_of_mem _ (List.mem_cons_self _ _)
        · exact List.mem_cons_of_mem _ (List.mem_cons_of_mem _ h1)
      · rw [if_neg hts]
        rcases List.mem_cons.mp (ih r) with h1 | h1
        · rw [h1]; exact List.mem_cons_self _ _
        · exact List.mem_cons_of_mem _ (List.mem_cons_of_mem _ h1)

/-- The running latest view check-in carries the maximal timestamp of the
seed and all folded check-ins. -/
theorem latestCheckInData_ts_ge :
    ∀ (cs : List CheckInData) (r : CheckInData),
      ∀ x ∈ r :: cs, x.timestamp ≤ (latestCheckInData r cs).timestamp := by
  intro cs
  induction cs with
  | nil =>
      intro r x hx
      rcases List.mem_cons.mp hx with h | h
      · rw [h, show latestCheckInData r [] = r from rfl]
      · cases h
  | cons c cs ih =>
      intro r x hx
      rw [show latestCheckInData r (c :: cs) =
        latestCheckInData (if c.timestamp > r.timestamp then c else r) cs from rfl]
      have hr_le : r.timestamp ≤ (if c.timestamp > r.timestamp then c else r).timestamp := by
        by_cases hts : c.timestamp > r.timestamp
        · rw [if_pos hts]; exact le_of_lt hts
        · rw [if_neg hts]
      have hc_le : c.timestamp ≤ (if c.timestamp > r.timestamp then c else r).timestamp := by
        by_cases hts : c.timestamp > r.timestamp
        · rw [if_pos hts]
        · rw [if_neg hts]; exact le_of_not_lt hts
      have hseed := ih (if c.timestamp > r.timestamp then c else r)
        (if c.timestamp > r.timestamp then c else r) (List.mem_cons_self _ _)
      rcases List.mem_cons.mp hx with h | h
      · rw [h]; exact le_trans hr_le hseed
      rcases List.mem_cons.mp h with h1 | h1
      · rw [h1]; exact le_trans hc_le hseed
      · exact ih (if c.timestamp > r.timestamp then c else r) x
          (List.mem_cons_of_mem _ h1)

/-- In a view list whose timestamps are pairwise distinct, two members
with the same timestamp are the same entry. -/
theorem pairwise_ts_ne_mem_eq_data :
    ∀ l : List CheckInData,
      l.Pairwise (fun a b => a.timestamp ≠ b.timestamp) →
      ∀ a ∈ l, ∀ b ∈ l, a.timestamp = b.timestamp → a = b := by
  intro l
  induction l with
  | nil => intro _ a ha; cases ha
  | cons x xs ih =>
      intro hp a ha b hb hab
      rcases List.pairwise_cons.mp hp with ⟨hx, hxs⟩
      rcases List.mem_cons.mp ha with h1 | h1 <;> rcases List.mem_cons.mp hb with h2 | h2
      · rw [h1, h2]
      · exfalso; rw [h1] at hab; exact hx b h2 hab
      · exfalso; rw [h2] at hab; exact hx a h1 hab.symm
      · exact ih hxs a h1 b h2 hab

/-- Claim C1: for any nonempty arrival sequence of check-ins for the same
username applied to an empty buffer via storeCheckIn, and likewise via the
view's addCheckIn, the buffer retains exactly one entry; that entry is one
of the arrived check-ins with the maximal timestamp of the sequence; a
further check-in whose timestamp is not strictly greater leaves the buffer
unchanged; and when the timestamps are pairwise distinct, every
permutation of the sequence yields the very same retained entry. -/
theorem storeCheckIn_dedup_replace (u : String) (c0 : NewCheckInMessage)
    (cs : List NewCheckInMessage) (hu : ∀ c ∈ c0 :: cs, c.username = u)
    (d0 : CheckInData) (ds : List CheckInData)
    (hv : ∀ d ∈ d0 :: ds, d.username = u) :
    (∃ r, storeAll [] (c0 :: cs) = [r] ∧ r ∈ c0 :: cs ∧
      (∀ c ∈ c0 :: cs, c.timestamp ≤ r.timestamp) ∧
      (∀ c : NewCheckInMessage, c.username = u → c.timestamp ≤ r.timestamp →
        storeCheckIn (storeAll [] (c0 :: cs)) c = storeAll [] (c0 :: cs)) ∧
      (∀ cs2 : List NewCheckInMessage, (c0 :: cs).Perm cs2 →
        (c0 :: cs).Pairwise (fun a b => a.timestamp ≠ b.timestamp) →
        storeAll [] cs2 = [r])) ∧
    (∃ r, addAllCheckIns [] (d0 :: ds) = [r] ∧ r ∈ d0 :: ds ∧
      (∀ d ∈ d0 :: ds, d.timestamp ≤ r.timestamp) ∧
      (∀ d : CheckInData, d.username = u → d.timestamp ≤ r.timestamp →
        addCheckIn (addAllCheckIns [] (d0 :: ds)) d = addAllCheckIns [] (d0 :: ds)) ∧
      (∀ ds2 : List CheckInData, (d0 :: ds).Perm ds2 →
        (d0 :: ds).Pairwise (fun a b => a.timestamp ≠ b.timestamp) →
        addAllCheckIns [] ds2 = [r])) := by
  constructor
  · have hu0 : c0.username = u := hu c0 (List.mem_cons_self _ _)
    have hucs : ∀ c ∈ cs, c.username = u := fun c hc => hu c (List.mem_cons_of_mem _ hc)
    have hmain : storeAll [] (c0 :: cs) = [latestCheckIn c0 cs] := by
      rw [show storeAll [] (c0 :: cs) = storeAll [c0] cs from rfl]
      exact storeAll_singleton_same_user u cs c0 hu0 hucs
    refine ⟨latestCheckIn c0 cs, hmain, latestCheckIn_mem cs c0,
      latestCheckIn_ts_ge cs c0, ?_, ?_⟩
    · intro c hcu hcts
      have hru : (latestCheckIn c0 cs).username = u := hu _ (latestCheckIn_mem cs c0)
      rw [hmain, storeCheckIn_singleton_same_user _ c (by rw [hru, hcu]),
        if_neg (not_lt.mpr hcts)]
    · intro cs2 hperm hpw
      cases cs2 with
      | nil => exact absurd hperm.length_eq (by simp)
      | cons d ds =>
          have hd : d.username = u := hu d (hperm.mem_iff.mpr (List.mem_cons_self _ _))
          have hds : ∀ c ∈ ds, c.username = u :=
            fun c hc => hu c (hperm.mem_iff.mpr (List.mem_cons_of_mem _ hc))
          have h2 : storeAll [] (d :: ds) = [latestCheckIn d ds] := by
            rw [show storeAll [] (d :: ds) = storeAll [d] ds from rfl]
            exact storeAll_singleton_same_user u ds d hd hds
          have hr2mem : latestCheckIn d ds ∈ c0 :: cs :=
            hperm.mem_iff.mpr (latestCheckIn_mem ds d)
          have hr1mem : latestCheckIn c0 cs ∈ d :: ds :=
            hperm.mem_iff.mp (latestCheckIn_mem cs c0)
          have h12 : (latestCheckIn c0 cs).timestamp ≤ (latestCheckIn d ds).timestamp :=
            latestCheckIn_ts_ge ds d _ hr1mem
          have h21 : (latestCheckIn d ds).timestamp ≤ (latestCheckIn c0 cs).timestamp :=
            latestCheckIn_ts_ge cs c0 _ hr2mem
          have heq : latestCheckIn d ds = latestCheckIn c0 cs :=
            pairwise_ts_ne_mem_eq (c0 :: cs) hpw _ hr2mem _ (latestCheckIn_mem cs c0)
              (le_antisymm h21 h12)
          rw [h2, heq]
  · have hv0 : d0.username = u := hv d0 (List.mem_cons_self _ _)
    have hvds : ∀ d ∈ ds, d.username = u := fun d hd => hv d (List.mem_cons_of_mem _ hd)
    have hmain : addAllCheckIns [] (d0 :: ds) = [latestCheckInData d0 ds] := by
      rw [show addAllCheckIns [] (d0 :: ds) =
        addAllCheckIns (addCheckIn [] d0) ds from rfl, addCheckIn_nil]
      exact addAllCheckIns_singleton_same_user u ds d0 hv0 hvds
    refine ⟨latestCheckInData d0 ds, hmain, latestCheckInData_mem ds d0,
      latestCheckInData_ts_ge ds d0, ?_, ?_⟩
    · intro d hdu hdts
      have hru : (latestCheckInData d0 ds).username = u :=
        hv _ (latestCheckInData_mem ds d0)
      rw [hmain, addCheckIn_singleton_same_user _ d (by rw [hru, hdu]),
        if_neg (not_lt.mpr hdts)]
    · intro ds2 hperm hpw
      cases ds2 with
      | nil => exact absurd hperm.length_eq (by simp)
      | cons e es =>
          have he : e.username = u := hv e (hperm.mem_iff.mpr (List.mem_cons_self _ _))
          have hes : ∀ d ∈ es, d.username = u :=
            fun d hd => hv d (hperm.mem_iff.mpr (List.mem_cons_of_mem _ hd))
          have h2 : addAllCheckIns [] (e :: es) = [latestCheckInData e es] := by
            rw [show addAllCheckIns [] (e :: es) =
              addAllCheckIns (addCheckIn [] e) es from rfl, addCheckIn_nil]
            exact addAllCheckIns_singleton_same_user u es e he hes
          have hr2mem : latestCheckInData e es ∈ d0 :: ds :=
            hperm.mem_iff.mpr (latestCheckInData_mem es e)
          have hr1mem : latestCheckInData d0 ds ∈ e :: es :=
            hperm.mem_iff.mp (latestCheckInData_mem ds d0)
          have h12 : (latestCheckInData d0 ds).timestamp ≤ (latestCheckInData e es).timestamp :=
            latestCheckInData_ts_ge es e _ hr1mem
          have h21 : (latestCheckInData e es).timestamp ≤ (latestCheckInData d0 ds).timestamp :=
            latestCheckInData_ts_ge ds d0 _ hr2mem
          have heq : latestCheckInData e es = latestCheckInData d0 ds :=
            pairwise_ts_ne_mem_eq_data (d0 :: ds) hpw _ hr2mem _
              (latestCheckInData_mem ds d0) (le_antisymm h21 h12)
          rw [h2, heq]

/-- Witness for claim C1: alice checks in twice, in both the client buffer
and the view buffer, and in both the newer entry wins. -/
theorem storeCheckIn_dedup_replace_witness :
    ((∀ c ∈ wsMsgA :: [wsMsgA2], c.username = "alice") ∧
      (∀ d ∈ viewMsgA :: [viewMsgA2], d.username = "alice")) ∧
    ((∃ r, storeAll [] (wsMsgA :: [wsMsgA2]) = [r] ∧ r ∈ wsMsgA :: [wsMsgA2] ∧
      (∀ c ∈ wsMsgA :: [wsMsgA2], c.timestamp ≤ r.timestamp) ∧
      (∀ c : NewCheckInMessage, c.username = "alice" → c.timestamp ≤ r.timestamp →
        storeCheckIn (storeAll [] (wsMsgA :: [wsMsgA2])) c =
          storeAll [] (wsMsgA :: [wsMsgA2])) ∧
      (∀ cs2 : List NewCheckInMessage, (wsMsgA :: [wsMsgA2]).Perm cs2 →
        (wsMsgA :: [wsMsgA2]).Pairwise (fun a b => a.timestamp ≠ b.timestamp) →
        storeAll [] cs2 = [r])) ∧
    (∃ r, addAllCheckIns [] (viewMsgA :: [viewMsgA2]) = [r] ∧
      r ∈ viewMsgA :: [viewMsgA2] ∧
      (∀ d ∈ viewMsgA :: [viewMsgA2], d.timestamp ≤ r.timestamp) ∧
      (∀ d : CheckInData, d.username = "alice" → d.timestamp ≤ r.timestamp →
        addCheckIn (addAllCheckIns [] (viewMsgA :: [viewMsgA2])) d =
          addAllCheckIns [] (viewMsgA :: [viewMsgA2])) ∧
      (∀ ds2 : List CheckInData, (viewMsgA :: [viewMsgA2]).Perm ds2 →
        (viewMsgA :: [viewMsgA2]).Pairwise (fun a b => a.timestamp ≠ b.timestamp) →
        addAllCheckIns [] ds2 = [r]))) :=
  ⟨⟨by decide, by decide⟩,
    storeCheckIn_dedup_replace "alice" wsMsgA [wsMsgA2] (by decide)
      viewMsgA [viewMsgA2] (by decide)⟩

/-- When the username is absent from the buffer, addCheckIn appends it at
the end and then keeps only the first 100 entries if the result exceeds
the bound. -/
theorem addCheckIn_absent (buf : List CheckInData) (c : CheckInData)
    (h : ∀ e ∈ buf, e.username ≠ c.username) :
    addCheckIn buf c =
      if buf.length + 1 > 100 then (buf ++ [c]).take 100 else buf ++ [c] := by
  have hany : ¬ (buf.any (fun e => e.username == c.username) = true) := by
    simp only [List.any_eq_true, beq_iff_eq]
    rintro ⟨e, he, heq⟩
    exact h e he heq
  rw [addCheckIn, if_neg hany]
  simp only [List.length_append, List.length_singleton]

/-- Folding distinct-username check-ins into a buffer disjoint from them
retains the existing entries followed by however many of the new ones fit
under the 100-entry bound, in arrival order. -/
theorem addAllCheckIns_take :
    ∀ (cs : List CheckInData) (buf : List CheckInData),
      cs.Pairwise (fun a b => a.username ≠ b.username) →
      (∀ e ∈ buf, ∀ c ∈ cs, e.username ≠ c.username) →
      buf.length ≤ 100 →
      addAllCheckIns buf cs = buf ++ cs.take (100 - buf.length) := by
  intro cs
  induction cs with
  | nil => intro buf _ _ _; simp [addAllCheckIns]
  | cons c cs ih =>
      intro buf hpw hdisj hlen
      rcases List.pairwise_cons.mp hpw with ⟨hc, hcs⟩
      have habs : ∀ e ∈ buf, e.username ≠ c.username :=
        fun e he => hdisj e he c (List.mem_cons_self _ _)
      rw [show addAllCheckIns buf (c :: cs) = addAllCheckIns (addCheckIn buf c) cs from rfl,
        addCheckIn_absent buf c habs]
      by_cases hfull : buf.length = 100
      · rw [if_pos (by omega)]
      
        have htake : (buf ++ [c]).take 100 = buf := by
          rw [← hfull]
          exact List.take_left buf [c]
        rw [htake,
          ih buf hcs (fun e he d hd => hdisj e he d (List.mem_cons_of_mem _ hd)) hlen,
          hfull]
        simp
      · have hlt : buf.length < 100 := by omega
        rw [if_neg (by omega)]
        rw [ih (buf ++ [c]) hcs ?disj2 (by rw [List.length_append]; simp; omega)]
        case disj2 =>
          intro e he d hd
          rcases List.mem_append.mp he with h1 | h1
          · exact hdisj e h1 d (List.mem_cons_of_mem _ hd)
          · rw [List.mem_singleton.mp h1]
            exact hc d hd
        have harith : 100 - buf.length = (100 - (buf ++ [c]).length) + 1 := by
          rw [List.length_append, List.length_singleton]
          omega
        rw [harith, List.take_succ_cons, List.append_assoc, List.singleton_append]

/-- Counterexample to claim C2 as stated: a buffer at capacity holding the
usernames 0 to 99 with timestamps 0 to 99 receives a check-in for the new
username 100 carrying the newest timestamp 100; the buffer stays exactly
as it was, the newcomer with the newest timestamp is NOT retained, and the
entry with the oldest timestamp (username 0, timestamp 0) IS retained:
slice(0, 100) after a push evicts the newly pushed entry, not the
oldest-by-timestamp one. -/
theorem addCheckIn_capacity_counterexample :
    fullBuffer.length = 100 ∧
    (∀ e ∈ fullBuffer, e.username ≠ newEntry.username) ∧
    (∀ e ∈ fullBuffer, e.timestamp < newEntry.timestamp) ∧
    addCheckIn fullBuffer newEntry = fullBuffer ∧
    newEntry ∉ addCheckIn fullBuffer newEntry ∧
    viewEntry 0 ∈ addCheckIn fullBuffer newEntry := by
  decide

/-- Claim C2 (amended): at capacity (100 entries), inserting a check-in
for a username not yet present keeps the size at exactly 100 by evicting
the newly appended entry itself (the last array element), leaving the
buffer unchanged; consequently after inserting N > 100 distinct usernames
the retained set is the FIRST 100 inserted, in insertion order, not the
100 most recent by timestamp. (The companion WebSocketClient.storeCheckIn
buffer applies no capacity bound at all.) -/
theorem addCheckIn_capacity (buf : List CheckInData) (c : CheckInData)
    (cs : List CheckInData) (hbuf : buf.length = 100)
    (habs : ∀ e ∈ buf, e.username ≠ c.username)
    (hdistinct : cs.Pairwise fun a b => a.username ≠ b.username) :
    addCheckIn buf c = buf ∧ (addCheckIn buf c).length = 100 ∧
    addAllCheckIns [] cs = cs.take 100 := by
  have h1 : addCheckIn buf c = buf := by
    rw [addCheckIn_absent buf c habs, if_pos (by omega), ← hbuf]
    exact List.take_left buf [c]
  refine ⟨h1, by rw [h1, hbuf], ?_⟩
  have h2 := addAllCheckIns_take cs [] hdistinct (by simp) (by simp)
  simpa using h2

/-- Witness for claim C2 at the concrete full buffer and two distinct
usernames. -/
theorem addCheckIn_capacity_witness :
    (fullBuffer.length = 100 ∧
      (∀ e ∈ fullBuffer, e.username ≠ newEntry.username) ∧
      ([viewEntry 0, viewEntry 1].Pairwise fun a b => a.username ≠ b.username)) ∧
    (addCheckIn fullBuffer newEntry = fullBuffer ∧
      (addCheckIn fullBuffer newEntry).length = 100 ∧
      addAllCheckIns [] [viewEntry 0, viewEntry 1] =
        [viewEntry 0, viewEntry 1].take 100) :=
  ⟨⟨by decide, by decide, by decide⟩,
    addCheckIn_capacity fullBuffer newEntry [viewEntry 0, viewEntry 1]
      (by decide) (by decide) (by decide)⟩

/-- Counterexample to claim C3 as stated: after alice (timestamp 100) and
then bob (timestamp 200) arrive, getAllCheckIns returns the retained
entries in insertion order, which is ascending here, not ordered by
timestamp descending. -/
theorem getAllCheckIns_unsorted_counterexample :
    storeAll [] [wsMsgA, wsMsgB] = [wsMsgA, wsMsgB] ∧
    getAllCheckIns exampleClientState = [wsMsgA, wsMsgB] ∧
    wsMsgA.timestamp < wsMsgB.timestamp ∧
    ¬ (getAllCheckIns exampleClientState).Pairwise
        (fun a b => b.timestamp ≤ a.timestamp) := by
  decide

/-- Claim C3 (amended): getAllCheckIns returns exactly the retained
entries, in insertion order, and leaves the client state untouched; the
list updateView posts to the webview is a permutation of the retained
entries sorted by timestamp descending, and updateView leaves the buffer
itself unchanged. (Both operations hand out spread copies in the source,
so mutating the returned arrays cannot touch the buffer.) -/
theorem snapshot_unsorted_view_sorted (s : ClientMessageState)
    (v : SecondaryCheckInViewState) :
    getAllCheckIns s = s.allReceivedCheckIns ∧
    ((updateView v).1).checkIns = v.checkIns ∧
    ((updateView v).2).Perm v.checkIns ∧
    ((updateView v).2).Pairwise (fun a b => b.timestamp ≤ a.timestamp) := by
  refine ⟨rfl, rfl, List.mergeSort_perm v.checkIns byTimestampDesc, ?_⟩
  have htrans : ∀ a b c : CheckInData, byTimestampDesc a b = true →
      byTimestampDesc b c = true → byTimestampDesc a c = true := by
    intro a b c hab hbc
    simp only [byTimestampDesc, decide_eq_true_eq] at *
    omega
  have htotal : ∀ a b : CheckInData,
      (byTimestampDesc a b || byTimestampDesc b a) = true := by
    intro a b
    simp only [byTimestampDesc, Bool.or_eq_true, decide_eq_true_eq]
    omega
  have hs := List.sorted_mergeSort htrans htotal v.checkIns
  exact hs.imp (fun h => by simpa [byTimestampDesc] using h)
